import Mathlib

/-!
Verification development for the aged-inventory rollup server (src/server.js).

The JavaScript source is shallowly embedded: strings stay strings, JS numbers
are modelled as exact rationals, nullable SQL text columns as Option String,
fallible external calls (database reads, the OAuth exchange) as Except values
supplied as parameters.  Each definition carries a reference to the source
lines it translates.
-/

namespace AgedInventory

/-! ## JS primitive models -/

/-- Model of the whitespace class used by the JS string trim operation
(restricted to the ASCII whitespace characters that matter for CSV data). -/
def isJsSpace (c : Char) : Bool :=
  c = ' ' || c = '\t' || c = '\n' || c = '\r' || c = '\x0b' || c = '\x0c'

/-- Model of JS String.prototype.trim: drop whitespace from both ends. -/
def jsTrim (s : String) : String :=
  ⟨(((s.data.dropWhile isJsSpace).reverse.dropWhile isJsSpace).reverse)⟩

/-- Numeric value of a digit string (most significant first). -/
def digitsToNat (l : List Char) : ℕ :=
  l.foldl (fun n c => 10 * n + (c.toNat - 48)) 0

/-- Exponent part of a JS float literal: an optional sign followed by digits;
when no digits follow, the exponent marker is ignored (exponent 0). -/
def expOf (l : List Char) : ℤ :=
  match l with
  | '-' :: rest =>
      if rest.takeWhile Char.isDigit = [] then 0
      else -(digitsToNat (rest.takeWhile Char.isDigit) : ℤ)
  | '+' :: rest =>
      if rest.takeWhile Char.isDigit = [] then 0
      else (digitsToNat (rest.takeWhile Char.isDigit) : ℤ)
  | _ =>
      if l.takeWhile Char.isDigit = [] then 0
      else (digitsToNat (l.takeWhile Char.isDigit) : ℤ)

/-- The syntactic pieces of a JS float literal: sign, integer digits,
fraction digits, exponent. -/
structure FloatParts where
  neg : Bool
  intPart : List Char
  fracPart : List Char
  expPart : ℤ
deriving DecidableEq

/-- Syntactic part of JS parseFloat: skip leading whitespace, optional sign,
integer digits, optional fraction, optional exponent; none models NaN (no
digits at all).  The special Infinity literal is treated as unparsable. -/
def parseParts (s : String) : Option FloatParts :=
  let l := s.data.dropWhile isJsSpace
  let neg : Bool := match l with | '-' :: _ => true | _ => false
  let l := match l with | '-' :: rest => rest | '+' :: rest => rest | _ => l
  let intPart := l.takeWhile Char.isDigit
  let l2 := l.dropWhile Char.isDigit
  let fracPart := match l2 with | '.' :: rest => rest.takeWhile Char.isDigit | _ => []
  let l3 := match l2 with | '.' :: rest => rest.dropWhile Char.isDigit | _ => l2
  if intPart = [] ∧ fracPart = [] then none
  else some
    { neg := neg, intPart := intPart, fracPart := fracPart
      expPart := match l3 with
        | 'e' :: rest => expOf rest
        | 'E' :: rest => expOf rest
        | _ => 0 }

/-- Numeric value of the parsed pieces (JS numbers are modelled as exact
rationals). -/
def partsVal (p : FloatParts) : ℚ :=
  (if p.neg then -1 else 1) *
    ((digitsToNat p.intPart : ℚ) + (digitsToNat p.fracPart : ℚ) / (10 : ℚ) ^ p.fracPart.length) *
    (10 : ℚ) ^ p.expPart

/-- Model of JS parseFloat on finite decimal input. -/
def jsParseFloat (s : String) : Option ℚ :=
  (parseParts s).map partsVal

/-- Model of String.prototype.replace removing every comma
(server.js line 106: String(s).replace with a global comma pattern). -/
def stripCommas (s : String) : String :=
  ⟨s.data.filter (fun c => c ≠ ',')⟩

/-- server.js lines 104-107: parseNum returns 0 for a blank field, otherwise
parseFloat of the comma-stripped text, with NaN collapsed to 0. -/
def parseNum (s : String) : ℚ :=
  if s = "" then 0
  else match jsParseFloat (stripCommas s) with
    | some q => q
    | none => 0

/-- Model of JS parseInt applied to an already-parsed finite number
(server.js line 245): the decimal rendering is reparsed as an integer,
which truncates toward zero; the trailing or-zero keeps 0 at 0. -/
def jsToInt (q : ℚ) : ℤ :=
  if 0 ≤ q then ⌊q⌋ else -⌊-q⌋

/-- Model of Math.round (half rounds toward positive infinity). -/
def jsRound (q : ℚ) : ℤ := ⌊q + 1 / 2⌋

/-- Deduplication with JS Set semantics: keep the first occurrence of each
element, in first-appearance order. -/
def jsDedup {α : Type} [DecidableEq α] : List α → List α
  | [] => []
  | x :: xs => x :: (jsDedup xs).filter (fun a => a ≠ x)

/-! ## Size ordering (server.js lines 109-112) -/

/-- server.js line 109: the canonical size rank table. -/
def SIZE_ORDER (s : String) : Option ℕ :=
  if s = "XS" then some 0 else if s = "S" then some 1 else if s = "M" then some 2
  else if s = "L" then some 3 else if s = "XL" then some 4 else if s = "1X" then some 5
  else if s = "2X" then some 6 else if s = "3X" then some 7 else if s = "4X" then some 8
  else none

/-- Comparator key of server.js line 111: table rank, defaulting to 9. -/
def sizeRank (s : String) : ℕ := (SIZE_ORDER s).getD 9

/-- Insertion step of a stable sort by sizeRank: an element goes in front of
the first element of equal or larger rank, so earlier elements of equal rank
stay first, matching the stable JS Array.prototype.sort. -/
def insertBySizeRank (x : String) : List String → List String
  | [] => [x]
  | y :: l => if sizeRank x ≤ sizeRank y then x :: y :: l else y :: insertBySizeRank x l

/-- Stable sort by sizeRank (model of the stable JS sort with the
rank-difference comparator of server.js line 111). -/
def stableSortBySizeRank : List String → List String
  | [] => []
  | x :: xs => insertBySizeRank x (stableSortBySizeRank xs)

/-- server.js lines 110-112: sortSizes deduplicates with Set semantics and
stable-sorts by the canonical rank. -/
def sortSizes (sizes : List String) : List String :=
  stableSortBySizeRank (jsDedup sizes)

/-! ## Low-value import rollup (server.js lines 196-282) -/

/-- One parsed CSV record handed to the low-value import handler.  All fields
are raw text; a column missing from the CSV is the empty string (the handler
guards every access with an or-empty-string default). -/
structure RawRow where
  Style : String
  Color : String
  Commodity : String
  Size : String
  Remaining_Stock : String
  Remaining_Asset_Value : String
  Current_Stock : String
  Committed_Stock : String
  Inventory_Age : String
  Age_Bracket : String
  Trsc_Date : String
  PO_No : String
  Unit_Cost : String
  CAD_Link : String
deriving DecidableEq

/-- The in-memory accumulator of server.js lines 220-229 (one entry of the
grouped object). -/
structure Group where
  style : String
  color : String
  commodity : String
  sizes : List String
  total_remaining : ℚ
  total_value : ℚ
  total_current : ℚ
  total_committed : ℚ
  unit_cost_sum : ℚ
  cost_count : ℕ
  age_days : ℤ
  age_bracket : String
  trsc_date : String
  po_no : String
  image_url : String
deriving DecidableEq

/-- server.js lines 220-229: the fresh accumulator created when a key is
first seen. -/
def initGroup (style color : String) : Group :=
  { style := style, color := color, commodity := "", sizes := []
    total_remaining := 0, total_value := 0, total_current := 0, total_committed := 0
    unit_cost_sum := 0, cost_count := 0
    age_days := 0, age_bracket := "", trsc_date := "", po_no := "", image_url := "" }

/-- server.js line 245: the parsed age of a row. -/
def rowAge (r : RawRow) : ℤ := jsToInt (parseNum r.Inventory_Age)

/-- server.js lines 231-253: merge one row into its group accumulator.
The catalog parameter is the snapshot of catalog_images read at lines
207-209 (a style maps to its image_url; an absent or SQL-null entry is none,
which the JS truthiness test treats like the empty string). -/
def applyRow (catalog : String → Option String) (d : Group) (r : RawRow) : Group :=
  let commodity := if jsTrim r.Commodity = "" then d.commodity else jsTrim r.Commodity
  let cad := jsTrim r.CAD_Link
  let catVal := (catalog (jsTrim r.Style)).getD ""
  let image_url :=
    if cad ≠ "" then cad
    else if d.image_url = "" ∧ catVal ≠ "" then catVal
    else d.image_url
  let hit := d.age_days < rowAge r
  { d with
    commodity := commodity
    image_url := image_url
    sizes := d.sizes ++ [jsTrim r.Size]
    total_remaining := d.total_remaining + parseNum r.Remaining_Stock
    total_value := d.total_value + parseNum r.Remaining_Asset_Value
    total_current := d.total_current + parseNum r.Current_Stock
    total_committed := d.total_committed + parseNum r.Committed_Stock
    age_days := if hit then rowAge r else d.age_days
    age_bracket := if hit then jsTrim r.Age_Bracket else d.age_bracket
    trsc_date := if hit then jsTrim r.Trsc_Date else d.trsc_date
    po_no := if jsTrim r.PO_No = "" then d.po_no else jsTrim r.PO_No
    unit_cost_sum := d.unit_cost_sum + parseNum r.Unit_Cost
    cost_count := d.cost_count + 1 }

/-- server.js line 217: the grouping key string. -/
def mkKey (style color : String) : String := style ++ "|" ++ color

/-- The key a row contributes under, none when the trimmed style is blank
(such rows are skipped, server.js line 216). -/
def keyOf (r : RawRow) : Option String :=
  if jsTrim r.Style = "" then none else some (mkKey (jsTrim r.Style) (jsTrim r.Color))

/-- Lookup in the grouped object, modelled as an insertion-ordered
association list. -/
def findGroup (k : String) : List (String × Group) → Option Group
  | [] => none
  | (k', g) :: rest => if k' = k then some g else findGroup k rest

/-- Keyed store into the grouped object: replace in place, or append a new
key at the end (JS object property creation order). -/
def setGroup (k : String) (g : Group) : List (String × Group) → List (String × Group)
  | [] => [(k, g)]
  | (k', g') :: rest => if k' = k then (k, g) :: rest else (k', g') :: setGroup k g rest

/-- server.js lines 213-254: process one row of the loop body. -/
def stepRow (catalog : String → Option String) (m : List (String × Group)) (r : RawRow) :
    List (String × Group) :=
  let style := jsTrim r.Style
  if style = "" then m
  else
    let color := jsTrim r.Color
    let key := mkKey style color
    let d := (findGroup key m).getD (initGroup style color)
    setGroup key (applyRow catalog d r) m

/-- The whole grouping loop of server.js lines 212-254. -/
def rollup (catalog : String → Option String) (rows : List RawRow) :
    List (String × Group) :=
  rows.foldl (stepRow catalog) []

/-- The rows of the input that land in the group stored under key k. -/
def members (k : String) (rows : List RawRow) : List RawRow :=
  rows.filter (fun r => keyOf r = some k)

/-- Comma-space join of the resolved size list (server.js line 260). -/
def joinSizes : List String → String
  | [] => ""
  | [s] => s
  | s :: rest => s ++ ", " ++ joinSizes rest

/-- One row inserted into aged_inventory (server.js lines 262-272). -/
structure InsertedRecord where
  style : String
  color : String
  commodity : String
  sizes : String
  total_remaining : ℚ
  total_value : ℚ
  total_current : ℚ
  total_committed : ℚ
  unit_cost_avg : ℚ
  age_days : ℤ
  age_bracket : String
  trsc_date : String
  po_no : String
  image_url : String
deriving DecidableEq

/-- server.js lines 259-272: resolve one group into the inserted record
(sizes resolved and joined, unit cost averaged to 4 decimals, total value
rounded to 2 decimals). -/
def finalizeGroup (d : Group) : InsertedRecord :=
  { style := d.style, color := d.color, commodity := d.commodity
    sizes := joinSizes (sortSizes d.sizes)
    total_remaining := d.total_remaining
    total_value := (jsRound (d.total_value * 100) : ℚ) / 100
    total_current := d.total_current
    total_committed := d.total_committed
    unit_cost_avg :=
      if 0 < d.cost_count then
        (jsRound (d.unit_cost_sum / (d.cost_count : ℚ) * 10000) : ℚ) / 10000
      else 0
    age_days := d.age_days, age_bracket := d.age_bracket, trsc_date := d.trsc_date
    po_no := d.po_no, image_url := d.image_url }

/-- server.js lines 256-274: the records inserted by one low-value import,
one per group (the whole aged_inventory table is replaced by them). -/
def lowValueImport (catalog : String → Option String) (rows : List RawRow) :
    List InsertedRecord :=
  (rollup catalog rows).map (fun p => finalizeGroup p.2)

/-! ## Catalog cache, backfill and sync (server.js lines 62-99 and 284-323) -/

/-- One persisted aged_inventory row as the backfill update sees it: the
style key, the nullable image_url column, and an abstract payload standing
for all the columns the update does not touch. -/
structure AggRow (α : Type) where
  style : String
  image_url : Option String
  rest : α
deriving DecidableEq

/-- The predicate of the SQL WHERE clause at lines 93 and 314:
image_url IS NULL OR image_url = the empty string. -/
def blankUrl : Option String → Bool
  | none => true
  | some s => s = ""

/-- The local catalog_images table keyed by its unique style column: a style
maps to some v when a row exists (v is the nullable image_url value). -/
def CatalogCache : Type := String → Option (Option String)

/-- The keyed upsert of server.js lines 80-86 and 301-305: insert or
overwrite the single row for a style. -/
def upsertCatalog (style url : String) (c : CatalogCache) : CatalogCache :=
  fun s => if s = style then some (some url) else c s

/-- Effect of the backfill UPDATE (server.js lines 89-94 and 310-315) on one
aged_inventory row: when its image_url is blank and a catalog row with the
same style exists, take that row's image_url; otherwise leave it alone.
The style column of catalog_images is unique, so at most one catalog row
joins. -/
def backfillRow (cache : CatalogCache) (a : AggRow α) : AggRow α :=
  if blankUrl a.image_url then
    match cache a.style with
    | some v => { a with image_url := v }
    | none => a
  else a

/-- The backfill UPDATE over the whole aged_inventory table. -/
def backfillDB (cache : CatalogCache) (rows : List (AggRow α)) : List (AggRow α) :=
  rows.map (backfillRow cache)

/-- One row of the external products table as read by the sync query. -/
structure CatProduct where
  base_style : Option String
  image_url : Option String

/-- The collaborators of syncCatalogImages: whether CATALOG_DATABASE_URL is
set, and the outcome of the external read (an error models a thrown query). -/
structure SyncSource where
  configured : Bool
  readProducts : Except Unit (List CatProduct)

/-- The local persisted state the sync touches: the catalog_images table and
the aged_inventory table. -/
structure LocalState (α : Type) where
  catalogImages : CatalogCache
  inventory : List (AggRow α)

/-- server.js lines 62-99: syncCatalogImages.  Not configured: return with no
change.  External read throws: the catch leaves state untouched and returns
normally (the error is swallowed after logging).  Zero image rows: early
return before any write.  Otherwise upsert each non-null, non-blank image
keyed by trimmed base_style, then run the backfill UPDATE against the
updated cache. -/
def syncCatalogImages (src : SyncSource) (st : LocalState α) : LocalState α :=
  if ¬ src.configured then st
  else match src.readProducts with
    | .error _ => st
    | .ok prods =>
      let rows := prods.filter (fun p => match p.image_url with
        | some u => u ≠ ""
        | none => false)
      if rows.isEmpty then st
      else
        let cache := rows.foldl (fun c p =>
          match p.base_style, p.image_url with
          | some bs, some u => if bs ≠ "" ∧ u ≠ "" then upsertCatalog (jsTrim bs) u c else c
          | _, _ => c) st.catalogImages
        { catalogImages := cache, inventory := backfillDB cache st.inventory }

/-- One row of the catalog-format CSV (server.js lines 296-299). -/
structure CatalogCsvRow where
  styleName : String
  styleImage : String

/-- server.js lines 285-316: the catalog import handler's effect on local
state — upsert every row whose style is non-blank, does not start with the
reserved prefix and whose image is non-blank, then the same backfill
UPDATE. -/
def importCatalog (rows : List CatalogCsvRow) (st : LocalState α) : LocalState α :=
  let cache := rows.foldl (fun c r =>
    let style := jsTrim r.styleName
    let img := jsTrim r.styleImage
    if style = "" ∨ style.startsWith "Grand" ∨ img = "" then c
    else upsertCatalog style img c) st.catalogImages
  { catalogImages := cache, inventory := backfillDB cache st.inventory }

/-! ## Zoho credential cache (server.js lines 114-167) -/

/-- JS truthiness of a possibly-absent string (undefined, null and the empty
string are all falsy). -/
def truthy : Option String → Bool
  | none => false
  | some t => t ≠ ""

/-- The parsed JSON body of the token endpoint response: the access_token
field may be absent, expires_in is the validity duration in seconds. -/
structure ZohoData where
  access_token : Option String
  expires_in : ℤ

/-- The collaborators of getZohoAccessToken: environment configuration, the
catalog-database refresh-token lookup and the network exchange, the last two
as oracles whose error case models a thrown exception caught at line 163. -/
structure ZohoEnv where
  envRefreshToken : Option String
  clientId : Option String
  clientSecret : Option String
  catalogConfigured : Bool
  dbRefreshToken : Except Unit (Option String)
  fetchToken : Except Unit ZohoData

/-- The module-level mutable cache of server.js lines 117-118. -/
structure ZohoState where
  zohoAccessToken : Option String
  tokenExpiry : ℤ
deriving DecidableEq

/-- Result of one call: the returned token (none models the null returns),
the cache afterwards, and whether the OAuth exchange was attempted. -/
structure ZohoResult where
  token : Option String
  state : ZohoState
  exchanged : Bool
deriving DecidableEq

/-- server.js lines 129-136: resolve the refresh token — the environment
value, else (when the catalog pool exists and the env value is falsy) the
most recently updated row of zoho_tokens if any; a thrown query is an
error. -/
def resolveRefreshToken (env : ZohoEnv) : Except Unit (Option String) :=
  if env.catalogConfigured ∧ truthy env.envRefreshToken = false then
    match env.dbRefreshToken with
    | .error e => .error e
    | .ok dbTok =>
      .ok (match dbTok with
        | some t => some t
        | none => env.envRefreshToken)
  else .ok env.envRefreshToken

/-- server.js lines 120-167: getZohoAccessToken as a pure state transformer.
now is the millisecond clock (Date.now()).  The cached token is returned
untouched while valid; otherwise credentials are resolved and the exchange
attempted, storing expiry now + (expires_in - 60) seconds in ms on success;
every failure path returns none with the cache unchanged. -/
def getZohoAccessToken (env : ZohoEnv) (now : ℤ) (s : ZohoState) : ZohoResult :=
  if truthy s.zohoAccessToken = true ∧ now < s.tokenExpiry then
    ⟨s.zohoAccessToken, s, false⟩
  else
    match resolveRefreshToken env with
    | .error _ => ⟨none, s, false⟩
    | .ok rt =>
      if ¬ (truthy rt = true ∧ truthy env.clientId = true ∧ truthy env.clientSecret = true) then
        ⟨none, s, false⟩
      else
        match env.fetchToken with
        | .error _ => ⟨none, s, true⟩
        | .ok data =>
          if truthy data.access_token = true then
            ⟨data.access_token, ⟨data.access_token, now + (data.expires_in - 60) * 1000⟩, true⟩
          else ⟨none, s, true⟩

/-! ## Specification-side helper functions

These express merge outcomes the way the spec describes them (first or last
non-blank value, first row attaining a maximum); the theorems below relate
the folds of the handler to them. -/

/-- The last non-blank string of a list, if any. -/
def lastNonBlank : List String → Option String
  | [] => none
  | s :: rest =>
    match lastNonBlank rest with
    | some v => some v
    | none => if s = "" then none else some s

/-- The first non-blank string of a list, if any. -/
def firstNonBlank : List String → Option String
  | [] => none
  | s :: rest => if s = "" then firstNonBlank rest else some s

/-- The first row of the list whose parsed age equals M, if any. -/
def firstRowWithAge (M : ℤ) : List RawRow → Option RawRow
  | [] => none
  | r :: rest => if rowAge r = M then some r else firstRowWithAge M rest

/-- The running maximum of parsed ages over a row list, floored at the
accumulator's initial value 0 (the age_days field starts at 0). -/
def maxAge (l : List RawRow) : ℤ :=
  l.foldl (fun a r => max a (rowAge r)) 0

/-- The number of distinct trimmed (style, color) pairs among rows whose
trimmed style is non-blank — the count the spec predicts for an import. -/
def distinctStyleColorCount (rows : List RawRow) : ℕ :=
  (jsDedup ((rows.filter (fun r => jsTrim r.Style ≠ "")).map
    (fun r => (jsTrim r.Style, jsTrim r.Color)))).length

/-- The commodity merge step of server.js line 232, on the trimmed value. -/
def commodityStep (acc c : String) : String :=
  if c = "" then acc else c

/-- The age-trio merge step of server.js lines 245-250. -/
def trioStep (t : ℤ × String × String) (r : RawRow) : ℤ × String × String :=
  if t.1 < rowAge r then (rowAge r, jsTrim r.Age_Bracket, jsTrim r.Trsc_Date) else t

/-- The image merge step of server.js lines 234-237. -/
def imgStep (catalog : String → Option String) (u : String) (r : RawRow) : String :=
  let cad := jsTrim r.CAD_Link
  let catVal := (catalog (jsTrim r.Style)).getD ""
  if cad ≠ "" then cad
  else if u = "" ∧ catVal ≠ "" then catVal
  else u

/-! ## Lemmas about jsDedup -/

theorem mem_jsDedup {α : Type} [DecidableEq α] (a : α) :
    ∀ l : List α, a ∈ jsDedup l ↔ a ∈ l := by
  intro l
  induction l with
  | nil => simp [jsDedup]
  | cons x xs ih =>
    simp only [jsDedup, List.mem_cons, List.mem_filter]
    constructor
    · rintro (h | ⟨h, _⟩)
      · exact Or.inl h
      · exact Or.inr (ih.mp h)
    · rintro (h | h)
      · exact Or.inl h
      · by_cases hax : a = x
        · exact Or.inl hax
        · exact Or.inr ⟨ih.mpr h, by simpa using hax⟩

theorem jsDedup_nodup {α : Type} [DecidableEq α] :
    ∀ l : List α, (jsDedup l).Nodup := by
  intro l
  induction l with
  | nil => simp [jsDedup]
  | cons x xs ih =>
    simp only [jsDedup, List.nodup_cons]
    refine ⟨?_, ih.filter _⟩
    intro hmem
    have := (List.mem_filter.mp hmem).2
    simp at this

theorem jsDedup_append_singleton {α : Type} [DecidableEq α] (a : α) :
    ∀ l : List α,
      jsDedup (l ++ [a]) = if a ∈ l then jsDedup l else jsDedup l ++ [a] := by
  intro l
  induction l with
  | nil => simp [jsDedup]
  | cons x xs ih =>
    by_cases hax : a ∈ xs
    · have hmem : a ∈ x :: xs := List.mem_cons_of_mem _ hax
      simp only [List.cons_append, jsDedup, List.append_eq]
      rw [ih, if_pos hax, if_pos hmem]
    · by_cases haxx : a = x
      · subst haxx
        have hmem : a ∈ a :: xs := List.mem_cons_self _ _
        simp only [List.cons_append, jsDedup, List.append_eq]
        rw [ih, if_neg hax, if_pos hmem, List.filter_append]
        simp
      · have hmem : a ∉ x :: xs := by simp [haxx, hax]
        simp only [List.cons_append, jsDedup, List.append_eq]
        rw [ih, if_neg hax, if_neg hmem, List.filter_append]
        simp [haxx]

/-! ## Lemmas about sortSizes -/

theorem sizeRank_le_nine (s : String) : sizeRank s ≤ 9 := by
  unfold sizeRank SIZE_ORDER
  repeat' split
  all_goals simp

theorem insertBySizeRank_perm (x : String) :
    ∀ l : List String, (insertBySizeRank x l).Perm (x :: l) := by
  intro l
  induction l with
  | nil => simp [insertBySizeRank]
  | cons y l ih =>
    simp only [insertBySizeRank]
    split
    · exact List.Perm.refl _
    · exact (List.Perm.cons y ih).trans (List.Perm.swap x y l)

theorem stableSortBySizeRank_perm :
    ∀ l : List String, (stableSortBySizeRank l).Perm l := by
  intro l
  induction l with
  | nil => simp [stableSortBySizeRank]
  | cons x xs ih =>
    simpa [stableSortBySizeRank] using
      (insertBySizeRank_perm x (stableSortBySizeRank xs)).trans (List.Perm.cons x ih)

theorem mem_insertBySizeRank {x a : String} {l : List String} :
    a ∈ insertBySizeRank x l ↔ a = x ∨ a ∈ l := by
  rw [(insertBySizeRank_perm x l).mem_iff]
  simp

theorem insertBySizeRank_pairwise (x : String) :
    ∀ l : List String,
      List.Pairwise (fun a b => sizeRank a ≤ sizeRank b) l →
      List.Pairwise (fun a b => sizeRank a ≤ sizeRank b) (insertBySizeRank x l) := by
  intro l
  induction l with
  | nil => simp [insertBySizeRank]
  | cons y l ih =>
    intro hp
    rcases List.pairwise_cons.mp hp with ⟨hy, hl⟩
    simp only [insertBySizeRank]
    split
    · rename_i hxy
      refine List.pairwise_cons.mpr ⟨?_, hp⟩
      intro b hb
      rcases List.mem_cons.mp hb with hb | hb
      · simpa [hb] using hxy
      · exact le_trans hxy (hy b hb)
    · rename_i hxy
      refine List.pairwise_cons.mpr ⟨?_, ih hl⟩
      intro b hb
      rcases mem_insertBySizeRank.mp hb with hb | hb
      · subst hb
        exact le_of_not_le hxy
      · exact hy b hb

theorem stableSortBySizeRank_pairwise :
    ∀ l : List String,
      List.Pairwise (fun a b => sizeRank a ≤ sizeRank b) (stableSortBySizeRank l) := by
  intro l
  induction l with
  | nil => simp [stableSortBySizeRank]
  | cons x xs ih => exact insertBySizeRank_pairwise x _ ih

theorem filter_unknown_insertBySizeRank (x : String) :
    ∀ l : List String,
      (insertBySizeRank x l).filter (fun s => sizeRank s = 9) =
        if sizeRank x = 9 then x :: l.filter (fun s => sizeRank s = 9)
        else l.filter (fun s => sizeRank s = 9) := by
  intro l
  induction l with
  | nil =>
    by_cases hx : sizeRank x = 9 <;> simp [insertBySizeRank, List.filter, hx]
  | cons y l ih =>
    by_cases hx : sizeRank x = 9
    · simp only [insertBySizeRank, hx, if_true]
      by_cases hy : sizeRank y = 9
      · rw [if_pos (by omega)]
        simp [List.filter, hx, hy]
      · rw [if_neg (by have := sizeRank_le_nine y; omega)]
        simp [List.filter, hx, hy, ih]
    · simp only [insertBySizeRank, hx, if_false]
      split
      · simp [List.filter, hx]
      · by_cases hy : sizeRank y = 9 <;> simp [List.filter, hy, ih, hx]

theorem filter_unknown_stableSortBySizeRank :
    ∀ l : List String,
      (stableSortBySizeRank l).filter (fun s => sizeRank s = 9) =
        l.filter (fun s => sizeRank s = 9) := by
  intro l
  induction l with
  | nil => simp [stableSortBySizeRank]
  | cons x xs ih =>
    simp only [stableSortBySizeRank, filter_unknown_insertBySizeRank]
    by_cases hx : sizeRank x = 9 <;> simp [List.filter, hx, ih]

theorem sortSizes_perm (l : List String) : (sortSizes l).Perm (jsDedup l) :=
  stableSortBySizeRank_perm _

theorem sortSizes_pairwise (l : List String) :
    List.Pairwise (fun a b => sizeRank a ≤ sizeRank b) (sortSizes l) :=
  stableSortBySizeRank_pairwise _

theorem sortSizes_filter_unknown (l : List String) :
    (sortSizes l).filter (fun s => sizeRank s = 9) =
      (jsDedup l).filter (fun s => sizeRank s = 9) :=
  filter_unknown_stableSortBySizeRank _

theorem sortSizes_nodup (l : List String) : (sortSizes l).Nodup :=
  (sortSizes_perm l).nodup_iff.mpr (jsDedup_nodup l)

theorem mem_sortSizes {a : String} {l : List String} : a ∈ sortSizes l ↔ a ∈ l := by
  rw [(sortSizes_perm l).mem_iff, mem_jsDedup]

/-! ## Lemmas about the grouped-object association list -/

theorem findGroup_setGroup_self (k : String) (g : Group) :
    ∀ m, findGroup k (setGroup k g m) = some g := by
  intro m
  induction m with
  | nil => simp [setGroup, findGroup]
  | cons p rest ih =>
    obtain ⟨k', g'⟩ := p
    by_cases h : k' = k
    · simp [setGroup, findGroup, h]
    · simp [setGroup, findGroup, h, ih]

theorem findGroup_setGroup_ne {k k' : String} (hne : k' ≠ k) (g : Group) :
    ∀ m, findGroup k (setGroup k' g m) = findGroup k m := by
  intro m
  induction m with
  | nil => simp [setGroup, findGroup, hne]
  | cons p rest ih =>
    obtain ⟨k'', g''⟩ := p
    by_cases h : k'' = k'
    · subst h
      simp [setGroup, findGroup, hne, ih]
    · simp only [setGroup, if_neg h, findGroup]
      by_cases h2 : k'' = k
      · simp [h2]
      · simp [h2, ih]

theorem keys_setGroup (k : String) (g : Group) :
    ∀ m, (setGroup k g m).map Prod.fst =
      if findGroup k m = none then m.map Prod.fst ++ [k] else m.map Prod.fst := by
  intro m
  induction m with
  | nil => simp [setGroup, findGroup]
  | cons p rest ih =>
    obtain ⟨k', g'⟩ := p
    by_cases h : k' = k
    · simp [setGroup, findGroup, h]
    · simp only [setGroup, findGroup, if_neg h, List.map_cons]
      rw [ih]
      by_cases h2 : findGroup k rest = none <;> simp [h2]

/-! ## The bridge between the fold of the handler and per-key member lists -/

theorem keyOf_eq_none_iff (r : RawRow) : keyOf r = none ↔ jsTrim r.Style = "" := by
  unfold keyOf
  split <;> simp_all

theorem keyOf_eq_some {r : RawRow} {k : String} (h : keyOf r = some k) :
    jsTrim r.Style ≠ "" ∧ k = mkKey (jsTrim r.Style) (jsTrim r.Color) := by
  unfold keyOf at h
  split at h <;> simp_all

theorem members_append (k : String) (rows : List RawRow) (r : RawRow) :
    members k (rows ++ [r]) =
      members k rows ++ if keyOf r = some k then [r] else [] := by
  unfold members
  rw [List.filter_append]
  by_cases h : keyOf r = some k <;> simp [h, List.filter]

theorem rollup_append (catalog : String → Option String) (rows : List RawRow) (r : RawRow) :
    rollup catalog (rows ++ [r]) = stepRow catalog (rollup catalog rows) r := by
  unfold rollup
  rw [List.foldl_append]
  rfl

/-- Membership in a member list unpacks to the key equation and membership
in the input. -/
theorem mem_members {r : RawRow} {k : String} {rows : List RawRow}
    (h : r ∈ members k rows) : keyOf r = some k ∧ r ∈ rows := by
  unfold members at h
  have h2 := List.mem_filter.mp h
  exact ⟨of_decide_eq_true h2.2, h2.1⟩

/-- The value stored for key k in the grouped object is exactly the fold of
applyRow over the rows contributing to k, started from the accumulator the
first such row creates. -/
theorem findGroup_rollup (catalog : String → Option String) (k : String) :
    ∀ rows : List RawRow,
      findGroup k (rollup catalog rows) =
        match members k rows with
        | [] => none
        | r :: rs =>
          some ((r :: rs).foldl (applyRow catalog)
            (initGroup (jsTrim r.Style) (jsTrim r.Color))) := by
  intro rows
  induction rows using List.reverseRecOn with
  | nil => simp [rollup, members, findGroup]
  | append_singleton rows r ih =>
    rw [rollup_append, members_append]
    by_cases hs : jsTrim r.Style = ""
    · have hkn : keyOf r = none := (keyOf_eq_none_iff r).mpr hs
      have hdrop : stepRow catalog (rollup catalog rows) r = rollup catalog rows := by
        simp only [stepRow, if_pos hs]
      rw [hdrop, hkn, ih]
      simp
    · have hkeq : keyOf r = some (mkKey (jsTrim r.Style) (jsTrim r.Color)) := by
        simp only [keyOf, if_neg hs]
      have hstep : stepRow catalog (rollup catalog rows) r =
          setGroup (mkKey (jsTrim r.Style) (jsTrim r.Color))
            (applyRow catalog
              ((findGroup (mkKey (jsTrim r.Style) (jsTrim r.Color))
                (rollup catalog rows)).getD
                  (initGroup (jsTrim r.Style) (jsTrim r.Color))) r)
            (rollup catalog rows) := by
        simp only [stepRow, if_neg hs]
      by_cases hk : keyOf r = some k
      · have hkey : k = mkKey (jsTrim r.Style) (jsTrim r.Color) := by
          rw [hkeq] at hk
          exact (Option.some_inj.mp hk).symm
        rw [if_pos hk, hstep, ← hkey, findGroup_setGroup_self, ih]
        cases hm : members k rows with
        | nil => simp
        | cons r₁ rs => simp [List.foldl_append]
      · have hne : mkKey (jsTrim r.Style) (jsTrim r.Color) ≠ k := by
          intro hcon
          exact hk (by rw [hkeq, hcon])
        rw [if_neg hk, hstep, findGroup_setGroup_ne hne, ih]
        simp

/-! ## Per-field behaviour of the applyRow fold -/

theorem foldl_applyRow_style (catalog : String → Option String) :
    ∀ (l : List RawRow) (d : Group), (l.foldl (applyRow catalog) d).style = d.style := by
  intro l
  induction l with
  | nil => intro d; rfl
  | cons r rs ih => intro d; rw [List.foldl_cons, ih]; rfl

theorem foldl_applyRow_commodity (catalog : String → Option String) :
    ∀ (l : List RawRow) (d : Group),
      (l.foldl (applyRow catalog) d).commodity =
        (lastNonBlank (l.map (fun r => jsTrim r.Commodity))).getD d.commodity := by
  intro l
  induction l with
  | nil => intro d; simp [lastNonBlank]
  | cons r rs ih =>
    intro d
    rw [List.foldl_cons, ih, List.map_cons]
    show _ = (lastNonBlank (jsTrim r.Commodity :: _)).getD d.commodity
    rw [lastNonBlank]
    cases h : lastNonBlank (rs.map (fun r => jsTrim r.Commodity)) with
    | some v => simp
    | none =>
      have hc : (applyRow catalog d r).commodity =
          if jsTrim r.Commodity = "" then d.commodity else jsTrim r.Commodity := rfl
      rw [hc]
      by_cases hb : jsTrim r.Commodity = "" <;> simp [hb]

theorem foldl_applyRow_sizes (catalog : String → Option String) :
    ∀ (l : List RawRow) (d : Group),
      (l.foldl (applyRow catalog) d).sizes = d.sizes ++ l.map (fun r => jsTrim r.Size) := by
  intro l
  induction l with
  | nil => intro d; simp
  | cons r rs ih =>
    intro d
    rw [List.foldl_cons, ih]
    show d.sizes ++ [jsTrim r.Size] ++ _ = _
    simp

theorem foldl_applyRow_total_remaining (catalog : String → Option String) :
    ∀ (l : List RawRow) (d : Group),
      (l.foldl (applyRow catalog) d).total_remaining =
        d.total_remaining + (l.map (fun r => parseNum r.Remaining_Stock)).sum := by
  intro l
  induction l with
  | nil => intro d; simp
  | cons r rs ih =>
    intro d
    rw [List.foldl_cons, ih]
    show d.total_remaining + parseNum r.Remaining_Stock + _ = _
    rw [List.map_cons, List.sum_cons, add_assoc]

theorem foldl_applyRow_total_value (catalog : String → Option String) :
    ∀ (l : List RawRow) (d : Group),
      (l.foldl (applyRow catalog) d).total_value =
        d.total_value + (l.map (fun r => parseNum r.Remaining_Asset_Value)).sum := by
  intro l
  induction l with
  | nil => intro d; simp
  | cons r rs ih =>
    intro d
    rw [List.foldl_cons, ih]
    show d.total_value + parseNum r.Remaining_Asset_Value + _ = _
    rw [List.map_cons, List.sum_cons, add_assoc]

theorem foldl_applyRow_total_current (catalog : String → Option String) :
    ∀ (l : List RawRow) (d : Group),
      (l.foldl (applyRow catalog) d).total_current =
        d.total_current + (l.map (fun r => parseNum r.Current_Stock)).sum := by
  intro l
  induction l with
  | nil => intro d; simp
  | cons r rs ih =>
    intro d
    rw [List.foldl_cons, ih]
    show d.total_current + parseNum r.Current_Stock + _ = _
    rw [List.map_cons, List.sum_cons, add_assoc]

theorem foldl_applyRow_total_committed (catalog : String → Option String) :
    ∀ (l : List RawRow) (d : Group),
      (l.foldl (applyRow catalog) d).total_committed =
        d.total_committed + (l.map (fun r => parseNum r.Committed_Stock)).sum := by
  intro l
  induction l with
  | nil => intro d; simp
  | cons r rs ih =>
    intro d
    rw [List.foldl_cons, ih]
    show d.total_committed + parseNum r.Committed_Stock + _ = _
    rw [List.map_cons, List.sum_cons, add_assoc]

theorem applyRow_trio (catalog : String → Option String) (d : Group) (r : RawRow) :
    ((applyRow catalog d r).age_days, (applyRow catalog d r).age_bracket,
      (applyRow catalog d r).trsc_date) =
      trioStep (d.age_days, d.age_bracket, d.trsc_date) r := by
  simp only [applyRow, trioStep]
  by_cases h : d.age_days < rowAge r <;> simp [h]

theorem foldl_applyRow_trio (catalog : String → Option String) :
    ∀ (l : List RawRow) (d : Group),
      ((l.foldl (applyRow catalog) d).age_days, (l.foldl (applyRow catalog) d).age_bracket,
        (l.foldl (applyRow catalog) d).trsc_date) =
        l.foldl trioStep (d.age_days, d.age_bracket, d.trsc_date) := by
  intro l
  induction l with
  | nil => intro d; rfl
  | cons r rs ih =>
    intro d
    rw [List.foldl_cons, List.foldl_cons, ih, ← applyRow_trio catalog d r]

theorem foldl_applyRow_image (catalog : String → Option String) :
    ∀ (l : List RawRow) (d : Group),
      (l.foldl (applyRow catalog) d).image_url = l.foldl (imgStep catalog) d.image_url := by
  intro l
  induction l with
  | nil => intro d; rfl
  | cons r rs ih =>
    intro d
    rw [List.foldl_cons, List.foldl_cons, ih]
    rfl

/-- Every key present in the grouped object was contributed by some row, so
a successful lookup means the member list is nonempty and determines the
group value. -/
theorem findGroup_rollup_some {catalog : String → Option String} {k : String}
    {rows : List RawRow} {g : Group}
    (h : findGroup k (rollup catalog rows) = some g) :
    ∃ r rs, members k rows = r :: rs ∧
      g = (r :: rs).foldl (applyRow catalog)
        (initGroup (jsTrim r.Style) (jsTrim r.Color)) := by
  rw [findGroup_rollup] at h
  cases hm : members k rows with
  | nil => rw [hm] at h; simp at h
  | cons r rs =>
    rw [hm] at h
    exact ⟨r, rs, rfl, by simpa using h.symm⟩

/-! ## Counting groups (for the grouping-key property) -/

theorem findGroup_eq_none_iff (k : String) :
    ∀ m, findGroup k m = none ↔ k ∉ m.map Prod.fst := by
  intro m
  induction m with
  | nil => simp [findGroup]
  | cons p rest ih =>
    obtain ⟨k', g'⟩ := p
    by_cases h : k' = k
    · subst h
      simp [findGroup]
    · rw [List.map_cons]
      simp only [findGroup, if_neg h, List.mem_cons]
      rw [ih]
      constructor
      · intro hn hcon
        rcases hcon with he | hm
        · exact h he.symm
        · exact hn hm
      · intro hn hm
        exact hn (Or.inr hm)

theorem rollup_keys (catalog : String → Option String) :
    ∀ rows : List RawRow,
      (rollup catalog rows).map Prod.fst = jsDedup (rows.filterMap keyOf) := by
  intro rows
  induction rows using List.reverseRecOn with
  | nil => simp [rollup, jsDedup]
  | append_singleton rows r ih =>
    rw [rollup_append, List.filterMap_append]
    by_cases hs : jsTrim r.Style = ""
    · have hkn : keyOf r = none := (keyOf_eq_none_iff r).mpr hs
      have hdrop : stepRow catalog (rollup catalog rows) r = rollup catalog rows := by
        simp only [stepRow, if_pos hs]
      rw [hdrop, ih]
      simp [List.filterMap, hkn]
    · have hkeq : keyOf r = some (mkKey (jsTrim r.Style) (jsTrim r.Color)) := by
        simp only [keyOf, if_neg hs]
      have hstep : stepRow catalog (rollup catalog rows) r =
          setGroup (mkKey (jsTrim r.Style) (jsTrim r.Color))
            (applyRow catalog
              ((findGroup (mkKey (jsTrim r.Style) (jsTrim r.Color))
                (rollup catalog rows)).getD
                  (initGroup (jsTrim r.Style) (jsTrim r.Color))) r)
            (rollup catalog rows) := by
        simp only [stepRow, if_neg hs]
      have hsingle : List.filterMap keyOf [r] = [mkKey (jsTrim r.Style) (jsTrim r.Color)] := by
        simp [List.filterMap, hkeq]
      rw [hstep, keys_setGroup, hsingle, ih,
        jsDedup_append_singleton (mkKey (jsTrim r.Style) (jsTrim r.Color)) (rows.filterMap keyOf)]
      by_cases hmem : mkKey (jsTrim r.Style) (jsTrim r.Color) ∈ rows.filterMap keyOf
      · have hnn : findGroup (mkKey (jsTrim r.Style) (jsTrim r.Color)) (rollup catalog rows) ≠ none := by
          intro hnone
          rw [findGroup_eq_none_iff, ih, mem_jsDedup] at hnone
          exact hnone hmem
        rw [if_neg hnn, if_pos hmem]
      · have hnn : findGroup (mkKey (jsTrim r.Style) (jsTrim r.Color)) (rollup catalog rows) = none := by
          rw [findGroup_eq_none_iff, ih, mem_jsDedup]
          exact hmem
        rw [if_pos hnn, if_neg hmem]

theorem filterMap_keyOf_eq_map (rows : List RawRow) :
    rows.filterMap keyOf =
      (rows.filter (fun r => jsTrim r.Style ≠ "")).map
        (fun r => mkKey (jsTrim r.Style) (jsTrim r.Color)) := by
  induction rows with
  | nil => simp
  | cons r rs ih =>
    by_cases hs : jsTrim r.Style = ""
    · have hkn : keyOf r = none := (keyOf_eq_none_iff r).mpr hs
      simp [List.filterMap_cons, hkn, List.filter, hs, ih]
    · have hkeq : keyOf r = some (mkKey (jsTrim r.Style) (jsTrim r.Color)) := by
        simp only [keyOf, if_neg hs]
      simp [List.filterMap_cons, hkeq, List.filter, hs, ih]

theorem jsDedup_map_of_injOn {α β : Type} [DecidableEq α] [DecidableEq β] (f : α → β) :
    ∀ l : List α, (∀ a ∈ l, ∀ b ∈ l, f a = f b → a = b) →
      jsDedup (l.map f) = (jsDedup l).map f := by
  intro l
  induction l with
  | nil => simp [jsDedup]
  | cons x xs ih =>
    intro hinj
    have hinj' : ∀ a ∈ xs, ∀ b ∈ xs, f a = f b → a = b := fun a ha b hb =>
      hinj a (List.mem_cons_of_mem _ ha) b (List.mem_cons_of_mem _ hb)
    rw [List.map_cons, jsDedup, jsDedup, ih hinj', List.map_cons]
    congr 1
    rw [List.filter_map]
    refine congrArg (List.map f) (List.filter_congr ?_)
    intro a ha
    have hax : a ∈ xs := (mem_jsDedup a xs).mp ha
    simp only [Function.comp]
    by_cases he : a = x
    · simp [he]
    · have : ¬ f a = f x := fun hfa =>
        he (hinj a (List.mem_cons_of_mem _ hax) x (List.mem_cons_self _ _) hfa)
      simp [he, this]

/-! ## Injectivity of the pipe-joined key for pipe-free styles -/

theorem pipe_split : ∀ (a₁ : List Char) {b₁ : List Char} (a₂ : List Char) {b₂ : List Char},
    '|' ∉ a₁ → '|' ∉ a₂ → a₁ ++ '|' :: b₁ = a₂ ++ '|' :: b₂ → a₁ = a₂ ∧ b₁ = b₂ := by
  intro a₁
  induction a₁ with
  | nil =>
    intro b₁ a₂ b₂ _ h₂ h
    cases a₂ with
    | nil => simpa using h
    | cons c a₂' =>
      exfalso
      simp only [List.nil_append, List.cons_append, List.cons.injEq] at h
      exact (by simpa using h₂ : ¬('|' = c ∨ '|' ∈ a₂')) (Or.inl h.1)
  | cons c a₁' ih =>
    intro b₁ a₂ b₂ h₁ h₂ h
    cases a₂ with
    | nil =>
      exfalso
      simp only [List.cons_append, List.nil_append, List.cons.injEq] at h
      exact (by simpa using h₁ : ¬('|' = c ∨ '|' ∈ a₁')) (Or.inl h.1.symm)
    | cons c₂ a₂' =>
      simp only [List.cons_append, List.cons.injEq] at h
      obtain ⟨hc, htail⟩ := h
      have h₁' : '|' ∉ a₁' := fun hm => h₁ (List.mem_cons_of_mem _ hm)
      have h₂' : '|' ∉ a₂' := fun hm => h₂ (List.mem_cons_of_mem _ hm)
      obtain ⟨he, hb⟩ := ih a₂' h₁' h₂' htail
      exact ⟨by rw [hc, he], hb⟩

theorem string_data_append (s t : String) : (s ++ t).data = s.data ++ t.data := by
  cases s
  cases t
  rfl

theorem mkKey_inj {s₁ c₁ s₂ c₂ : String}
    (h₁ : '|' ∉ s₁.data) (h₂ : '|' ∉ s₂.data)
    (h : mkKey s₁ c₁ = mkKey s₂ c₂) : s₁ = s₂ ∧ c₁ = c₂ := by
  have hd : s₁.data ++ '|' :: c₁.data = s₂.data ++ '|' :: c₂.data := by
    have := congrArg String.data h
    unfold mkKey at this
    rw [string_data_append, string_data_append, string_data_append, string_data_append] at this
    simpa using this
  obtain ⟨hs, hc⟩ := pipe_split s₁.data s₂.data h₁ h₂ hd
  exact ⟨congrArg String.mk hs, congrArg String.mk hc⟩

/-! ## Characterizing the age-trio fold -/

theorem le_foldl_max (g : RawRow → ℤ) :
    ∀ (l : List RawRow) (a : ℤ), a ≤ l.foldl (fun b r => max b (g r)) a := by
  intro l
  induction l with
  | nil => intro a; exact le_refl a
  | cons r rs ih =>
    intro a
    rw [List.foldl_cons]
    exact le_trans (le_max_left a (g r)) (ih (max a (g r)))

theorem mem_le_foldl_max (g : RawRow → ℤ) :
    ∀ (l : List RawRow) (a : ℤ) (x : RawRow), x ∈ l →
      g x ≤ l.foldl (fun b r => max b (g r)) a := by
  intro l
  induction l with
  | nil => intro a x hx; simp at hx
  | cons r rs ih =>
    intro a x hx
    rw [List.foldl_cons]
    rcases List.mem_cons.mp hx with hx | hx
    · subst hx
      exact le_trans (le_max_right a (g x)) (le_foldl_max g rs _)
    · exact ih _ x hx

theorem foldl_max_of_all_le (g : RawRow → ℤ) :
    ∀ (l : List RawRow) (a : ℤ), (∀ x ∈ l, g x ≤ a) →
      l.foldl (fun b r => max b (g r)) a = a := by
  intro l
  induction l with
  | nil => intro a _; rfl
  | cons r rs ih =>
    intro a h
    rw [List.foldl_cons, max_eq_left (h r (List.mem_cons_self _ _))]
    exact ih a (fun x hx => h x (List.mem_cons_of_mem _ hx))

theorem trioFold_of_all_le :
    ∀ (l : List RawRow) (t : ℤ × String × String), (∀ r ∈ l, rowAge r ≤ t.1) →
      l.foldl trioStep t = t := by
  intro l
  induction l with
  | nil => intro t _; rfl
  | cons r rs ih =>
    intro t h
    rw [List.foldl_cons]
    have : trioStep t r = t := by
      rw [trioStep, if_neg (not_lt.mpr (h r (List.mem_cons_self _ _)))]
    rw [this]
    exact ih t (fun x hx => h x (List.mem_cons_of_mem _ hx))

theorem trioFold_spec :
    ∀ (l : List RawRow) (t : ℤ × String × String) (M : ℤ),
      M = l.foldl (fun a r => max a (rowAge r)) t.1 →
      (∃ r ∈ l, t.1 < rowAge r) →
      ∃ r, firstRowWithAge M l = some r ∧
        l.foldl trioStep t = (rowAge r, jsTrim r.Age_Bracket, jsTrim r.Trsc_Date) := by
  intro l
  induction l with
  | nil =>
    intro t M _ hex
    simp at hex
  | cons r₀ rs ih =>
    intro t M hM hex
    rw [List.foldl_cons] at hM
    rw [List.foldl_cons]
    by_cases h0 : t.1 < rowAge r₀
    · have ht' : trioStep t r₀ = (rowAge r₀, jsTrim r₀.Age_Bracket, jsTrim r₀.Trsc_Date) := by
        rw [trioStep, if_pos h0]
      rw [max_eq_right (le_of_lt h0)] at hM
      by_cases hsub : ∃ x ∈ rs, rowAge r₀ < rowAge x
      · obtain ⟨x, hxmem, hxgt⟩ := hsub
        have hMgt : rowAge r₀ < M := by
          rw [hM]
          exact lt_of_lt_of_le hxgt (mem_le_foldl_max rowAge rs _ x hxmem)
        have hfind : firstRowWithAge M (r₀ :: rs) = firstRowWithAge M rs := by
          rw [firstRowWithAge, if_neg (by omega)]
        obtain ⟨r', hfind', hfold'⟩ := ih (rowAge r₀, jsTrim r₀.Age_Bracket, jsTrim r₀.Trsc_Date)
          M (by simpa using hM) ⟨x, hxmem, hxgt⟩
        refine ⟨r', ?_, ?_⟩
        · rw [hfind, hfind']
        · rw [ht', hfold']
      · push_neg at hsub
        have hMeq : M = rowAge r₀ := by
          rw [hM]
          exact foldl_max_of_all_le rowAge rs _ hsub
        have hfold : rs.foldl trioStep (rowAge r₀, jsTrim r₀.Age_Bracket, jsTrim r₀.Trsc_Date) =
            (rowAge r₀, jsTrim r₀.Age_Bracket, jsTrim r₀.Trsc_Date) :=
          trioFold_of_all_le rs _ (by simpa using hsub)
        refine ⟨r₀, ?_, ?_⟩
        · rw [firstRowWithAge, if_pos hMeq.symm]
        · rw [ht', hfold]
    · have ht' : trioStep t r₀ = t := by
        rw [trioStep, if_neg h0]
      rw [max_eq_left (not_lt.mp h0)] at hM
      obtain ⟨x, hxmem, hxgt⟩ := hex
      have hxmem' : x ∈ rs := by
        rcases List.mem_cons.mp hxmem with hx | hx
        · subst hx; omega
        · exact hx
      have hMgt : rowAge r₀ < M := by
        have := mem_le_foldl_max rowAge rs t.1 x hxmem'
        rw [← hM] at this
        omega
      obtain ⟨r', hfind', hfold'⟩ := ih t M hM ⟨x, hxmem', hxgt⟩
      refine ⟨r', ?_, ?_⟩
      · rw [firstRowWithAge, if_neg (by omega), hfind']
      · rw [ht', hfold']

theorem foldl_max_attained (g : RawRow → ℤ) :
    ∀ (l : List RawRow) (a : ℤ),
      l.foldl (fun b r => max b (g r)) a = a ∨
        ∃ x ∈ l, l.foldl (fun b r => max b (g r)) a = g x := by
  intro l
  induction l with
  | nil => intro a; exact Or.inl rfl
  | cons r rs ih =>
    intro a
    rw [List.foldl_cons]
    rcases ih (max a (g r)) with h | ⟨x, hx, hfx⟩
    · rw [h]
      rcases max_choice a (g r) with hm | hm
      · exact Or.inl hm
      · exact Or.inr ⟨r, List.mem_cons_self _ _, hm⟩
    · exact Or.inr ⟨x, List.mem_cons_of_mem _ hx, hfx⟩

/-! ## Characterizing the image fold -/

theorem imgStep_def (catalog : String → Option String) (u : String) (r : RawRow) :
    imgStep catalog u r =
      if jsTrim r.CAD_Link ≠ "" then jsTrim r.CAD_Link
      else if u = "" ∧ (catalog (jsTrim r.Style)).getD "" ≠ "" then
        (catalog (jsTrim r.Style)).getD ""
      else u := rfl

theorem imgFold_of_ne_blank (catalog : String → Option String) :
    ∀ (l : List RawRow) (u : String), u ≠ "" →
      l.foldl (imgStep catalog) u =
        (lastNonBlank (l.map (fun r => jsTrim r.CAD_Link))).getD u := by
  intro l
  induction l with
  | nil => intro u _; simp [lastNonBlank]
  | cons r rs ih =>
    intro u hu
    rw [List.foldl_cons, List.map_cons, lastNonBlank]
    by_cases hcad : jsTrim r.CAD_Link = ""
    · have hstep : imgStep catalog u r = u := by
        rw [imgStep_def, if_neg (by simpa using hcad)]
        simp [hu]
      rw [hstep, ih u hu]
      cases h : lastNonBlank (rs.map (fun r => jsTrim r.CAD_Link)) <;> simp [hcad]
    · have hstep : imgStep catalog u r = jsTrim r.CAD_Link := by
        rw [imgStep_def, if_pos (by simpa using hcad)]
      rw [hstep, ih _ hcad]
      cases h : lastNonBlank (rs.map (fun r => jsTrim r.CAD_Link)) <;> simp [hcad]

theorem imgFold_from_blank (catalog : String → Option String) (s : String) :
    ∀ (l : List RawRow), l ≠ [] → (∀ r ∈ l, jsTrim r.Style = s) →
      l.foldl (imgStep catalog) "" =
        (lastNonBlank (l.map (fun r => jsTrim r.CAD_Link))).getD
          ((catalog s).getD "") := by
  intro l
  induction l with
  | nil => intro h _; exact absurd rfl h
  | cons r rs ih =>
    intro _ hsty
    have hrs : jsTrim r.Style = s := hsty r (List.mem_cons_self _ _)
    rw [List.foldl_cons, List.map_cons, lastNonBlank]
    by_cases hcad : jsTrim r.CAD_Link = ""
    · by_cases hcv : (catalog s).getD "" = ""
      · have hstep : imgStep catalog "" r = "" := by
          rw [imgStep_def, if_neg (by simpa using hcad), hrs]
          simp [hcv]
        rw [hstep]
        cases rs with
        | nil => simp [lastNonBlank, hcad, hcv]
        | cons r₁ rs₁ =>
          rw [ih (by simp) (fun x hx => hsty x (List.mem_cons_of_mem _ hx))]
          cases h : lastNonBlank ((r₁ :: rs₁).map (fun r => jsTrim r.CAD_Link)) <;>
            simp [hcad]
      · have hstep : imgStep catalog "" r = (catalog s).getD "" := by
          rw [imgStep_def, if_neg (by simpa using hcad), hrs]
          simp [hcv]
        rw [hstep, imgFold_of_ne_blank catalog rs _ hcv]
        cases h : lastNonBlank (rs.map (fun r => jsTrim r.CAD_Link)) <;> simp [hcad]
    · have hstep : imgStep catalog "" r = jsTrim r.CAD_Link := by
        rw [imgStep_def, if_pos (by simpa using hcad)]
      rw [hstep, imgFold_of_ne_blank catalog rs _ hcad]
      cases h : lastNonBlank (rs.map (fun r => jsTrim r.CAD_Link)) <;> simp [hcad]

/-! ## Backfill behaviour -/

theorem backfillRow_not_blank {cache : CatalogCache} {a : AggRow α}
    (h : blankUrl a.image_url = false) : backfillRow cache a = a := by
  rw [backfillRow, if_neg (by simp [h])]

theorem backfillRow_idem (cache : CatalogCache) (a : AggRow α) :
    backfillRow cache (backfillRow cache a) = backfillRow cache a := by
  by_cases h : blankUrl a.image_url
  · cases hc : cache a.style with
    | none =>
      have h2 : backfillRow cache a = a := by
        rw [backfillRow, if_pos h, hc]
      rw [h2]
      exact h2
    | some v =>
      have h2 : backfillRow cache a = { a with image_url := v } := by
        rw [backfillRow, if_pos h, hc]
      rw [h2]
      by_cases hv : blankUrl v = true
      · have h3 : blankUrl ({ a with image_url := v } : AggRow α).image_url = true := hv
        rw [backfillRow, if_pos h3]
        have hstyle : ({ a with image_url := v } : AggRow α).style = a.style := rfl
        rw [hstyle, hc]
      · exact backfillRow_not_blank (by simpa using hv)
  · have h1 := @backfillRow_not_blank α cache a (by simpa using h)
    rw [h1]
    exact h1

/-! ## Claim theorems -/

/-- Claim C5: sortSizes deduplicates the token multiset (keeping first
occurrences) and orders it by the canonical rank XS through 4X, with tokens
outside the table (rank 9) placed after all known sizes in their original
relative order of first appearance; in particular L, M, L, Q resolves to
M, L, Q.  The conjuncts state: the output is a permutation of the Set-style
deduplication, it is sorted by rank (so every known token precedes every
unknown one), the subsequence of unknown tokens equals their first-seen
order, and the concrete example. -/
theorem sortSizes_spec (l : List String) :
    (sortSizes l).Perm (jsDedup l) ∧
    List.Pairwise (fun a b => sizeRank a ≤ sizeRank b) (sortSizes l) ∧
    (sortSizes l).filter (fun s => sizeRank s = 9) =
      (jsDedup l).filter (fun s => sizeRank s = 9) ∧
    sortSizes ["L", "M", "L", "Q"] = ["M", "L", "Q"] :=
  ⟨sortSizes_perm l, sortSizes_pairwise l, sortSizes_filter_unknown l, by decide⟩

/-- Claim C6: the backfill UPDATE changes only aggregates whose image_url is
blank (SQL null or empty), setting them to the catalog entry of the same
style when one exists; a non-blank image_url is never changed; and running
backfill twice against the same cache equals running it once. -/
theorem backfill_monotone_idem (α : Type) (cache : CatalogCache) (rows : List (AggRow α)) :
    (∀ a : AggRow α, blankUrl a.image_url = false → backfillRow cache a = a) ∧
    (∀ a : AggRow α, blankUrl a.image_url = true →
      backfillRow cache a =
        match cache a.style with
        | some v => { a with image_url := v }
        | none => a) ∧
    backfillDB cache (backfillDB cache rows) = backfillDB cache rows := by
  refine ⟨?_, ?_, ?_⟩
  · intro a h
    exact backfillRow_not_blank h
  · intro a h
    rw [backfillRow, if_pos h]
  · simp only [backfillDB, List.map_map]
    apply List.map_congr_left
    intro a _
    exact backfillRow_idem cache a

/-- Claim C9: when the external catalog source is not configured, or its
read throws, syncCatalogImages returns with the catalog cache and the
aggregates untouched; being a total function of the read outcome, it also
propagates no error to its caller. -/
theorem syncCatalogImages_noop_on_error (α : Type) (src : SyncSource) (st : LocalState α) :
    (src.configured = false → syncCatalogImages src st = st) ∧
    (∀ e : Unit, src.readProducts = .error e → syncCatalogImages src st = st) := by
  constructor
  · intro h
    rw [syncCatalogImages, if_pos (by simp [h])]
  · intro e h
    by_cases hc : src.configured = true
    · rw [syncCatalogImages, if_neg (by simp [hc]), h]
    · rw [syncCatalogImages, if_pos (by simpa using hc)]

/-- Claim C8: getZohoAccessToken returns the cached token with no exchange
whenever a (truthy) cached token exists and now is before the stored expiry;
otherwise, with a resolvable refresh token and client credentials and a
response carrying an access token, it stores that token with expiry
now + (expires_in - 60) seconds (in milliseconds) and returns it; and every
failure (thrown refresh-token lookup, missing credentials, thrown exchange,
or a response without an access token) yields none instead of an
exception. -/
theorem getZohoAccessToken_spec (env : ZohoEnv) (now : ℤ) (s : ZohoState) :
    (∀ t : String, s.zohoAccessToken = some t → t ≠ "" → now < s.tokenExpiry →
      getZohoAccessToken env now s = ⟨some t, s, false⟩) ∧
    (¬ (truthy s.zohoAccessToken = true ∧ now < s.tokenExpiry) →
      ∀ (rt : Option String) (data : ZohoData) (t : String),
        resolveRefreshToken env = .ok rt → truthy rt = true →
        truthy env.clientId = true → truthy env.clientSecret = true →
        env.fetchToken = .ok data → data.access_token = some t → t ≠ "" →
        getZohoAccessToken env now s =
          ⟨some t, ⟨some t, now + (data.expires_in - 60) * 1000⟩, true⟩) ∧
    (¬ (truthy s.zohoAccessToken = true ∧ now < s.tokenExpiry) →
      (resolveRefreshToken env = .error () ∨
        (∀ rt : Option String, resolveRefreshToken env = .ok rt → truthy rt = false) ∨
        truthy env.clientId = false ∨ truthy env.clientSecret = false ∨
        env.fetchToken = .error () ∨
        (∀ data : ZohoData, env.fetchToken = .ok data →
          truthy data.access_token = false)) →
      (getZohoAccessToken env now s).token = none) := by
  refine ⟨?_, ?_, ?_⟩
  · intro t ht hne hexp
    have htr : truthy s.zohoAccessToken = true := by
      rw [ht]
      simpa [truthy] using hne
    rw [getZohoAccessToken, if_pos ⟨htr, hexp⟩, ht]
  · intro hnc rt data t hres htr hci hcs hfetch htok hne
    simp only [getZohoAccessToken, if_neg hnc, hres, hfetch]
    rw [if_neg (not_not_intro ⟨htr, hci, hcs⟩)]
    have hta : truthy data.access_token = true := by
      rw [htok]
      simpa [truthy] using hne
    rw [if_pos hta, htok]
  · intro hnc hfail
    rcases hres : resolveRefreshToken env with e | rt
    · simp [getZohoAccessToken, if_neg hnc, hres]
    · simp only [getZohoAccessToken, if_neg hnc, hres]
      by_cases hcred : truthy rt = true ∧ truthy env.clientId = true ∧
          truthy env.clientSecret = true
      · rw [if_neg (not_not_intro hcred)]
        rcases hfetch : env.fetchToken with e | data
        · simp [hfetch]
        · simp only [hfetch]
          rcases hfail with hfail | hfail | hfail | hfail | hfail | hfail
          · rw [hfail] at hres
            cases hres
          · rw [hfail rt hres] at hcred
            simp at hcred
          · rw [hfail] at hcred
            simp at hcred
          · rw [hfail] at hcred
            simp at hcred
          · rw [hfail] at hfetch
            cases hfetch
          · rw [if_neg (by simp [hfail data hfetch])]
      · rw [if_pos hcred]

/-- Claim C1 (amended): for every group the aggregate's commodity is the
LAST non-blank trimmed Commodity among the group's rows (empty when every
row's commodity is blank): a later blank never overwrites it, but a later
non-blank row does replace it. -/
theorem lowValue_commodity_last_nonblank (catalog : String → Option String)
    (rows : List RawRow) (k : String) (g : Group)
    (h : findGroup k (rollup catalog rows) = some g) :
    g.commodity =
      (lastNonBlank ((members k rows).map (fun r => jsTrim r.Commodity))).getD "" := by
  obtain ⟨r, rs, hm, hg⟩ := findGroup_rollup_some h
  rw [hg, hm, foldl_applyRow_commodity]
  rfl

/-- Claim C7: every sum field of a group is the exact sum of the parsed
values of its rows' corresponding columns, where parsing strips commas and
maps blank or unparsable text to 0 (witnessed by the three closing
conjuncts). -/
theorem lowValue_sums (catalog : String → Option String)
    (rows : List RawRow) (k : String) (g : Group)
    (h : findGroup k (rollup catalog rows) = some g) :
    g.total_remaining = ((members k rows).map (fun r => parseNum r.Remaining_Stock)).sum ∧
    g.total_value = ((members k rows).map (fun r => parseNum r.Remaining_Asset_Value)).sum ∧
    g.total_current = ((members k rows).map (fun r => parseNum r.Current_Stock)).sum ∧
    g.total_committed = ((members k rows).map (fun r => parseNum r.Committed_Stock)).sum ∧
    parseNum "" = 0 ∧ parseNum "x units" = 0 ∧ parseNum "1,234.5" = 1234.5 := by
  obtain ⟨r, rs, hm, hg⟩ := findGroup_rollup_some h
  refine ⟨?_, ?_, ?_, ?_, rfl, rfl, ?_⟩
  · rw [hg, hm, foldl_applyRow_total_remaining]
    show (0 : ℚ) + _ = _
    rw [zero_add]
  · rw [hg, hm, foldl_applyRow_total_value]
    show (0 : ℚ) + _ = _
    rw [zero_add]
  · rw [hg, hm, foldl_applyRow_total_current]
    show (0 : ℚ) + _ = _
    rw [zero_add]
  · rw [hg, hm, foldl_applyRow_total_committed]
    show (0 : ℚ) + _ = _
    rw [zero_add]
  · have hp : parseParts (stripCommas "1,234.5") = some ⟨false, ['1', '2', '3', '4'], ['5'], 0⟩ := rfl
    have hi : digitsToNat ['1', '2', '3', '4'] = 1234 := rfl
    have hf : digitsToNat ['5'] = 5 := rfl
    simp [parseNum, jsParseFloat, hp, partsVal, hi, hf]
    norm_num

/-- Claim C2 (amended): provided no trimmed style contains the pipe
character, the number of records a low-value import inserts (one per group)
equals the number of distinct trimmed (style, color) pairs among rows with a
non-blank trimmed style.  The proviso is forced because the grouping key is
the string style concatenated with a pipe and the color, which can merge
distinct pairs when a style itself contains a pipe. -/
theorem lowValue_group_count (catalog : String → Option String) (rows : List RawRow)
    (hp : ∀ r ∈ rows, '|' ∉ (jsTrim r.Style).data) :
    (lowValueImport catalog rows).length = distinctStyleColorCount rows := by
  have hlen : (lowValueImport catalog rows).length = (rollup catalog rows).length := by
    rw [lowValueImport, List.length_map]
  have hkeys : (rollup catalog rows).length = (jsDedup (rows.filterMap keyOf)).length := by
    rw [← rollup_keys catalog rows, List.length_map]
  have hmm : (rows.filter (fun r => jsTrim r.Style ≠ "")).map
      (fun r => mkKey (jsTrim r.Style) (jsTrim r.Color)) =
      ((rows.filter (fun r => jsTrim r.Style ≠ "")).map
        (fun r => (jsTrim r.Style, jsTrim r.Color))).map (fun p => mkKey p.1 p.2) := by
    rw [List.map_map]
    rfl
  have hinj : ∀ a ∈ (rows.filter (fun r => jsTrim r.Style ≠ "")).map
      (fun r => (jsTrim r.Style, jsTrim r.Color)),
      ∀ b ∈ (rows.filter (fun r => jsTrim r.Style ≠ "")).map
        (fun r => (jsTrim r.Style, jsTrim r.Color)),
      mkKey a.1 a.2 = mkKey b.1 b.2 → a = b := by
    intro a ha b hb hab
    obtain ⟨ra, hra, hpa⟩ := List.mem_map.mp ha
    obtain ⟨rb, hrb, hpb⟩ := List.mem_map.mp hb
    have hpipea : '|' ∉ a.1.data := by
      rw [← hpa]
      exact hp ra (List.mem_of_mem_filter hra)
    have hpipeb : '|' ∉ b.1.data := by
      rw [← hpb]
      exact hp rb (List.mem_of_mem_filter hrb)
    obtain ⟨h1, h2⟩ := mkKey_inj hpipea hpipeb hab
    exact Prod.ext h1 h2
  have hd := jsDedup_map_of_injOn (fun p => mkKey p.1 p.2)
    ((rows.filter (fun r => jsTrim r.Style ≠ "")).map
      (fun r => (jsTrim r.Style, jsTrim r.Color))) hinj
  rw [hlen, hkeys, filterMap_keyOf_eq_map, hmm, hd, List.length_map,
    distinctStyleColorCount]

/-- Claim C3 (amended): whenever some row of the group has a strictly
positive parsed age, the trio age_days, age_bracket, trsc_date of the group
comes atomically from the first row in input order attaining the maximum
parsed age; when no row has positive parsed age (the maximum is at most the
initial 0), the trio keeps its initial value (0, empty, empty) and comes
from no row. -/
theorem lowValue_age_trio (catalog : String → Option String)
    (rows : List RawRow) (k : String) (g : Group)
    (h : findGroup k (rollup catalog rows) = some g) :
    (0 < maxAge (members k rows) →
      ∃ r, firstRowWithAge (maxAge (members k rows)) (members k rows) = some r ∧
        g.age_days = rowAge r ∧ g.age_bracket = jsTrim r.Age_Bracket ∧
        g.trsc_date = jsTrim r.Trsc_Date) ∧
    (maxAge (members k rows) ≤ 0 →
      g.age_days = 0 ∧ g.age_bracket = "" ∧ g.trsc_date = "") := by
  obtain ⟨r, rs, hm, hg⟩ := findGroup_rollup_some h
  have htrio : (g.age_days, g.age_bracket, g.trsc_date) =
      (members k rows).foldl trioStep (0, "", "") := by
    rw [hg, hm, foldl_applyRow_trio]
    rfl
  constructor
  · intro hpos
    have hex : ∃ x ∈ members k rows, ((0, "", "") : ℤ × String × String).1 < rowAge x := by
      rcases foldl_max_attained rowAge (members k rows) 0 with hat | ⟨x, hx, hfx⟩
      · rw [maxAge, hat] at hpos
        omega
      · refine ⟨x, hx, ?_⟩
        rw [maxAge, hfx] at hpos
        exact hpos
    obtain ⟨r', hfind, hfold⟩ := trioFold_spec (members k rows) (0, "", "")
      (maxAge (members k rows)) (by rw [maxAge]) hex
    have hcomp := htrio.trans hfold
    exact ⟨r', hfind, congrArg (fun t => t.1) hcomp,
      congrArg (fun t => t.2.1) hcomp, congrArg (fun t => t.2.2) hcomp⟩
  · intro hle
    have hall : ∀ x ∈ members k rows, rowAge x ≤ ((0, "", "") : ℤ × String × String).1 := by
      intro x hx
      have h1 := mem_le_foldl_max rowAge (members k rows) 0 x hx
      rw [← maxAge] at h1
      omega
    have h2 := trioFold_of_all_le (members k rows) (0, "", "") hall
    rw [h2] at htrio
    exact ⟨congrArg (fun t => t.1) htrio, congrArg (fun t => t.2.1) htrio,
      congrArg (fun t => t.2.2) htrio⟩

/-- Claim C4 (amended): provided no trimmed style contains the pipe
character (so all rows of one group share one style), the resolved image_url
of a group is the last non-blank trimmed CAD_Link among its rows in input
order, and when no row carries one it is the snapshotted catalog entry for
the group's style (empty string when the entry is absent); an in-batch CAD
link therefore always beats the cache. -/
theorem lowValue_image_priority (catalog : String → Option String)
    (rows : List RawRow) (k : String) (g : Group)
    (hp : ∀ r ∈ rows, '|' ∉ (jsTrim r.Style).data)
    (h : findGroup k (rollup catalog rows) = some g) :
    g.image_url =
      (lastNonBlank ((members k rows).map (fun r => jsTrim r.CAD_Link))).getD
        ((catalog g.style).getD "") := by
  obtain ⟨r, rs, hm, hg⟩ := findGroup_rollup_some h
  have hrmem : r ∈ members k rows := by
    rw [hm]
    exact List.mem_cons_self _ _
  have hstyleg : g.style = jsTrim r.Style := by
    rw [hg, foldl_applyRow_style]
    rfl
  have hsty : ∀ x ∈ members k rows, jsTrim x.Style = jsTrim r.Style := by
    intro x hx
    obtain ⟨hkx, hxrows⟩ := mem_members hx
    obtain ⟨hkr, hrrows⟩ := mem_members hrmem
    obtain ⟨hsx, hkxe⟩ := keyOf_eq_some hkx
    obtain ⟨hsr, hkre⟩ := keyOf_eq_some hkr
    have hkk : mkKey (jsTrim x.Style) (jsTrim x.Color) =
        mkKey (jsTrim r.Style) (jsTrim r.Color) := by
      rw [← hkxe, ← hkre]
    exact (mkKey_inj (hp x hxrows) (hp r hrrows) hkk).1
  have himg : g.image_url = (members k rows).foldl (imgStep catalog) "" := by
    rw [hg, hm, foldl_applyRow_image]
    rfl
  rw [himg, hstyleg]
  rw [hm] at hsty ⊢
  exact imgFold_from_blank catalog (jsTrim r.Style) (r :: rs) (by simp) hsty

/-- Claim C10: a group containing a row with blank or whitespace-only Size
keeps the empty-string token: it appears exactly once in the resolved size
list, which is sorted by rank with the empty token receiving the
unknown-token rank 9, so every token after it is also unknown-ranked (all
known sizes come before it). -/
theorem lowValue_blank_size_token (catalog : String → Option String)
    (rows : List RawRow) (k : String) (g : Group)
    (h : findGroup k (rollup catalog rows) = some g)
    (hb : ∃ r ∈ members k rows, jsTrim r.Size = "") :
    (sortSizes g.sizes).count "" = 1 ∧
    List.Pairwise (fun a b => sizeRank a ≤ sizeRank b) (sortSizes g.sizes) ∧
    sizeRank "" = 9 ∧
    ∀ l₁ l₂, sortSizes g.sizes = l₁ ++ "" :: l₂ → ∀ x ∈ l₂, sizeRank x = 9 := by
  obtain ⟨r, rs, hm, hg⟩ := findGroup_rollup_some h
  have hsizes : g.sizes = (members k rows).map (fun r => jsTrim r.Size) := by
    rw [hg, hm, foldl_applyRow_sizes]
    rfl
  have hmem : ("" : String) ∈ g.sizes := by
    obtain ⟨r0, hr0, hs0⟩ := hb
    rw [hsizes]
    exact List.mem_map.mpr ⟨r0, hr0, hs0⟩
  refine ⟨List.count_eq_one_of_mem (sortSizes_nodup _) (mem_sortSizes.mpr hmem),
    sortSizes_pairwise _, by decide, ?_⟩
  intro l₁ l₂ hsplit x hx
  have hpair := sortSizes_pairwise g.sizes
  rw [hsplit] at hpair
  have h2 := (List.pairwise_append.mp hpair).2.1
  have h3 := (List.pairwise_cons.mp h2).1 x hx
  have h4 := sizeRank_le_nine x
  have h5 : sizeRank "" = 9 := by decide
  omega

/-! ## Concrete inputs for counterexamples and witnesses -/

/-- A row with every CSV field blank. -/
def blankRow : RawRow := ⟨"", "", "", "", "", "", "", "", "", "", "", "", "", ""⟩

/-- An empty catalog_images snapshot. -/
def noCatalog : String → Option String := fun _ => none

def rowCommodityA : RawRow := { blankRow with Style := "S", Commodity := "A" }

def rowCommodityB : RawRow := { blankRow with Style := "S", Commodity := "B" }

def rowPipe1 : RawRow := { blankRow with Style := "A|B", Color := "C" }

def rowPipe2 : RawRow := { blankRow with Style := "A", Color := "B|C" }

/-- A snapshot holding an image only for style A. -/
def pipeCatalog : String → Option String := fun s => if s = "A" then some "u" else none

def rowJunkAge : RawRow :=
  { blankRow with
    Style := "S"
    Inventory_Age := "junk"
    Age_Bracket := "1 year"
    Trsc_Date := "2020-01-01" }

def rowM : RawRow :=
  { blankRow with
    Style := "ABC123"
    Color := "Black"
    Size := "M"
    Remaining_Stock := "10"
    Remaining_Asset_Value := "50.00"
    Inventory_Age := "400"
    Age_Bracket := "1 year"
    Unit_Cost := "5.00" }

def rowL : RawRow :=
  { blankRow with
    Style := "ABC123"
    Color := "Black"
    Size := "L"
    Remaining_Stock := "5"
    Remaining_Asset_Value := "25.00"
    Inventory_Age := "430"
    Age_Bracket := "1 year+"
    Unit_Cost := "5.50"
    CAD_Link := "http://cad/abc.jpg" }

def rowCadBlank : RawRow := { blankRow with Style := "XY1", CAD_Link := "" }

def rowCadLink : RawRow := { blankRow with Style := "XY1", CAD_Link := "http://a/1.jpg" }

/-- The cache of the image-priority scenario in the spec. -/
def specCatalog : String → Option String :=
  fun s => if s = "XY1" then some "http://b/2.jpg" else none

def rowBlankSize : RawRow := { blankRow with Style := "S", Size := " " }

/-- The group the import builds from rowM and rowL. -/
def gML : Group :=
  (findGroup "ABC123|Black" (rollup noCatalog [rowM, rowL])).getD (initGroup "" "")

/-- The group the import builds from the junk-age row. -/
def gJunk : Group :=
  (findGroup "S|" (rollup noCatalog [rowJunkAge])).getD (initGroup "" "")

/-- The group the import builds from the two commodity rows. -/
def gCommod : Group :=
  (findGroup "S|" (rollup noCatalog [rowCommodityA, rowCommodityB])).getD (initGroup "" "")

/-- The group the import builds in the image-priority scenario. -/
def gCad : Group :=
  (findGroup "XY1|" (rollup specCatalog [rowCadBlank, rowCadLink])).getD (initGroup "" "")

/-- The group the import builds from the blank-size row. -/
def gBlankSize : Group :=
  (findGroup "S|" (rollup noCatalog [rowBlankSize])).getD (initGroup "" "")

/-! ## Evaluation lemmas for the concrete inputs -/

theorem parseNum_400 : parseNum "400" = 400 := by
  have hp : parseParts (stripCommas "400") = some ⟨false, ['4', '0', '0'], [], 0⟩ := rfl
  have hi : digitsToNat ['4', '0', '0'] = 400 := rfl
  have hf : digitsToNat ([] : List Char) = 0 := rfl
  simp [parseNum, jsParseFloat, hp, partsVal, hi, hf]

theorem parseNum_430 : parseNum "430" = 430 := by
  have hp : parseParts (stripCommas "430") = some ⟨false, ['4', '3', '0'], [], 0⟩ := rfl
  have hi : digitsToNat ['4', '3', '0'] = 430 := rfl
  have hf : digitsToNat ([] : List Char) = 0 := rfl
  simp [parseNum, jsParseFloat, hp, partsVal, hi, hf]

theorem rowAge_rowM : rowAge rowM = 400 := by
  show jsToInt (parseNum "400") = 400
  rw [parseNum_400]
  norm_num [jsToInt]

theorem rowAge_rowL : rowAge rowL = 430 := by
  show jsToInt (parseNum "430") = 430
  rw [parseNum_430]
  norm_num [jsToInt]

theorem rowAge_junk : rowAge rowJunkAge = 0 := by
  have h : parseNum "junk" = 0 := rfl
  show jsToInt (parseNum "junk") = 0
  rw [h]
  norm_num [jsToInt]

theorem maxAge_ML : maxAge (members "ABC123|Black" [rowM, rowL]) = 430 := by
  have hm : members "ABC123|Black" [rowM, rowL] = [rowM, rowL] := by decide
  rw [hm, maxAge, List.foldl_cons, List.foldl_cons, List.foldl_nil,
    rowAge_rowM, rowAge_rowL]
  omega

theorem maxAge_junk : maxAge (members "S|" [rowJunkAge]) = 0 := by
  have hm : members "S|" [rowJunkAge] = [rowJunkAge] := by decide
  rw [hm, maxAge, List.foldl_cons, List.foldl_nil, rowAge_junk]
  omega

/-! ## Counterexamples -/

/-- Counterexample to claim C1 as stated: with rows whose trimmed
Commodity values are A then B in one group, the group's commodity is B (the
later non-blank overwrote), not the first non-blank A. -/
theorem lowValue_commodity_cex :
    (findGroup "S|" (rollup noCatalog [rowCommodityA, rowCommodityB])).map
      (fun g => g.commodity) = some "B" ∧
    firstNonBlank ((members "S|" [rowCommodityA, rowCommodityB]).map
      (fun r => jsTrim r.Commodity)) = some "A" ∧
    (findGroup "S|" (rollup noCatalog [rowCommodityA, rowCommodityB])).map
      (fun g => g.commodity) ≠
      some ((firstNonBlank ((members "S|" [rowCommodityA, rowCommodityB]).map
        (fun r => jsTrim r.Commodity))).getD "") := by
  refine ⟨rfl, rfl, by decide⟩

/-- Counterexample to claim C2 as stated: the two rows carry the distinct
trimmed pairs (A|B, C) and (A, B|C), yet both map to the single grouping key
A|B|C, so one record is inserted where the claim predicts two. -/
theorem lowValue_group_count_cex :
    (lowValueImport noCatalog [rowPipe1, rowPipe2]).length ≠
      distinctStyleColorCount [rowPipe1, rowPipe2] ∧
    (lowValueImport noCatalog [rowPipe1, rowPipe2]).length = 1 ∧
    distinctStyleColorCount [rowPipe1, rowPipe2] = 2 := by
  refine ⟨by decide, rfl, rfl⟩

/-- Counterexample to claim C3 as stated: the single row of this group has
unparsable Inventory_Age (parsed age 0, which is the maximum parsed age and
attained by that first row), yet the group's age_bracket is the initial
empty string, not that row's trimmed bracket, because the update fires only
on a strict increase over the initial 0. -/
theorem lowValue_age_trio_cex :
    (findGroup "S|" (rollup noCatalog [rowJunkAge])).map (fun g => g.age_bracket) =
      some "" ∧
    members "S|" [rowJunkAge] = [rowJunkAge] ∧
    firstRowWithAge (maxAge (members "S|" [rowJunkAge])) (members "S|" [rowJunkAge]) =
      some rowJunkAge ∧
    jsTrim rowJunkAge.Age_Bracket = "1 year" ∧
    ("" : String) ≠ "1 year" := by
  have hm : members "S|" [rowJunkAge] = [rowJunkAge] := by decide
  refine ⟨?_, hm, ?_, by decide, by decide⟩
  · have hfind : findGroup "S|" (rollup noCatalog [rowJunkAge]) = some gJunk := rfl
    have htrio : (gJunk.age_days, gJunk.age_bracket, gJunk.trsc_date) =
        (members "S|" [rowJunkAge]).foldl trioStep (0, "", "") := by
      obtain ⟨r, rs, hm2, hg⟩ := findGroup_rollup_some hfind
      rw [hg, hm2, foldl_applyRow_trio]
      rfl
    rw [hm] at htrio
    have hstep : List.foldl trioStep ((0 : ℤ), "", "") [rowJunkAge] = ((0 : ℤ), "", "") := by
      rw [List.foldl_cons, List.foldl_nil, trioStep,
        if_neg (by simp [rowAge_junk])]
    rw [hstep] at htrio
    simp only [Prod.ext_iff] at htrio
    rw [hfind, Option.map_some', htrio.2.1]
  · rw [maxAge_junk, hm, firstRowWithAge, if_pos rowAge_junk]

/-- Counterexample to claim C4 as stated: a pipe-containing style merges two
styles into one group; no row has a non-blank CAD link and the cache has no
entry for the group's style A|B, so the claim predicts an empty image_url,
but the second row's per-row lookup of style A fills in u. -/
theorem lowValue_image_priority_cex :
    (findGroup "A|B|C" (rollup pipeCatalog [rowPipe1, rowPipe2])).map
      (fun g => (g.style, g.image_url)) = some ("A|B", "u") ∧
    pipeCatalog "A|B" = none ∧
    (members "A|B|C" [rowPipe1, rowPipe2]).map (fun r => jsTrim r.CAD_Link) = ["", ""] ∧
    (findGroup "A|B|C" (rollup pipeCatalog [rowPipe1, rowPipe2])).map
      (fun g => g.image_url) ≠
      some ((lastNonBlank ((members "A|B|C" [rowPipe1, rowPipe2]).map
        (fun r => jsTrim r.CAD_Link))).getD ((pipeCatalog "A|B").getD "")) := by
  refine ⟨rfl, rfl, rfl, by decide⟩

/-! ## Witnesses -/

/-- Witness for C1 (amended) at a concrete two-row group. -/
theorem lowValue_commodity_witness :
    gCommod.commodity =
      (lastNonBlank ((members "S|" [rowCommodityA, rowCommodityB]).map
        (fun r => jsTrim r.Commodity))).getD "" :=
  lowValue_commodity_last_nonblank noCatalog [rowCommodityA, rowCommodityB] "S|" gCommod rfl

/-- Witness for C2 (amended) on a pipe-free input. -/
theorem lowValue_group_count_witness :
    (lowValueImport noCatalog [rowM, rowL]).length =
      distinctStyleColorCount [rowM, rowL] :=
  lowValue_group_count noCatalog [rowM, rowL] (by decide)

/-- Witness for C3 (amended): the positive-age clause on the two-row group
with maximum age 430, and the degenerate clause on the junk-age group. -/
theorem lowValue_age_trio_witness :
    (∃ r, firstRowWithAge (maxAge (members "ABC123|Black" [rowM, rowL]))
        (members "ABC123|Black" [rowM, rowL]) = some r ∧
      gML.age_days = rowAge r ∧ gML.age_bracket = jsTrim r.Age_Bracket ∧
      gML.trsc_date = jsTrim r.Trsc_Date) ∧
    (gJunk.age_days = 0 ∧ gJunk.age_bracket = "" ∧ gJunk.trsc_date = "") :=
  ⟨(lowValue_age_trio noCatalog [rowM, rowL] "ABC123|Black" gML rfl).1
      (by rw [maxAge_ML]; omega),
   (lowValue_age_trio noCatalog [rowJunkAge] "S|" gJunk rfl).2
      (by rw [maxAge_junk])⟩

/-- Witness for C4 (amended) at the spec's image-priority scenario: the
in-batch CAD link wins over the cache entry. -/
theorem lowValue_image_priority_witness :
    gCad.image_url =
      (lastNonBlank ((members "XY1|" [rowCadBlank, rowCadLink]).map
        (fun r => jsTrim r.CAD_Link))).getD ((specCatalog gCad.style).getD "") ∧
    gCad.image_url = "http://a/1.jpg" :=
  ⟨lowValue_image_priority specCatalog [rowCadBlank, rowCadLink] "XY1|" gCad
      (by decide) rfl, rfl⟩

/-- Witness for C6 on a concrete cache and table. -/
theorem backfill_monotone_idem_witness :
    backfillDB (fun s => if s = "S" then some (some "u") else none)
      (backfillDB (fun s => if s = "S" then some (some "u") else none)
        [(⟨"S", some "", ()⟩ : AggRow Unit), ⟨"T", some "x", ()⟩]) =
      backfillDB (fun s => if s = "S" then some (some "u") else none)
        [(⟨"S", some "", ()⟩ : AggRow Unit), ⟨"T", some "x", ()⟩] ∧
    backfillRow (fun s => if s = "S" then some (some "u") else none)
      (⟨"T", some "x", ()⟩ : AggRow Unit) = ⟨"T", some "x", ()⟩ :=
  ⟨(backfill_monotone_idem Unit (fun s => if s = "S" then some (some "u") else none)
      [⟨"S", some "", ()⟩, ⟨"T", some "x", ()⟩]).2.2,
   (backfill_monotone_idem Unit (fun s => if s = "S" then some (some "u") else none)
      [⟨"S", some "", ()⟩, ⟨"T", some "x", ()⟩]).1 ⟨"T", some "x", ()⟩ (by decide)⟩

/-- Witness for C7: the remaining-stock sum of the concrete two-row group. -/
theorem lowValue_sums_witness :
    gML.total_remaining =
      ((members "ABC123|Black" [rowM, rowL]).map
        (fun r => parseNum r.Remaining_Stock)).sum :=
  (lowValue_sums noCatalog [rowM, rowL] "ABC123|Black" gML rfl).1

/-- A concrete credential-cache environment for the C8 witness. -/
def zohoEnvW : ZohoEnv :=
  { envRefreshToken := some "r", clientId := some "c", clientSecret := some "s"
    catalogConfigured := false, dbRefreshToken := Except.ok none
    fetchToken := Except.ok ⟨some "tok2", 3600⟩ }

/-- A cached token expiring at millisecond 100. -/
def zohoCached : ZohoState := ⟨some "tok", 100⟩

/-- Witness for C8: the cached fast path at time 50, a successful refresh at
time 200, and the missing-client-identity failure. -/
theorem getZohoAccessToken_spec_witness :
    getZohoAccessToken zohoEnvW 50 zohoCached = ⟨some "tok", zohoCached, false⟩ ∧
    getZohoAccessToken zohoEnvW 200 zohoCached =
      ⟨some "tok2", ⟨some "tok2", 200 + (3600 - 60) * 1000⟩, true⟩ ∧
    (getZohoAccessToken { zohoEnvW with clientId := none } 200 zohoCached).token = none :=
  ⟨(getZohoAccessToken_spec zohoEnvW 50 zohoCached).1 "tok" rfl (by decide) (by decide),
   (getZohoAccessToken_spec zohoEnvW 200 zohoCached).2.1 (by decide)
     (some "r") ⟨some "tok2", 3600⟩ "tok2" rfl rfl rfl rfl rfl rfl (by decide),
   (getZohoAccessToken_spec { zohoEnvW with clientId := none } 200 zohoCached).2.2
     (by decide) (Or.inr (Or.inr (Or.inl (by decide))))⟩

/-- Witness for C9: an unconfigured source and a throwing source both leave
a concrete local state untouched. -/
theorem syncCatalogImages_noop_witness :
    syncCatalogImages ⟨false, Except.ok []⟩
      (⟨fun _ => none, []⟩ : LocalState Unit) = ⟨fun _ => none, []⟩ ∧
    syncCatalogImages ⟨true, Except.error ()⟩
      (⟨fun _ => none, []⟩ : LocalState Unit) = ⟨fun _ => none, []⟩ :=
  ⟨(syncCatalogImages_noop_on_error Unit ⟨false, Except.ok []⟩ ⟨fun _ => none, []⟩).1 rfl,
   (syncCatalogImages_noop_on_error Unit ⟨true, Except.error ()⟩ ⟨fun _ => none, []⟩).2 () rfl⟩

/-- Witness for C10 at a one-row group with blank Size. -/
theorem lowValue_blank_size_token_witness :
    (sortSizes gBlankSize.sizes).count "" = 1 :=
  (lowValue_blank_size_token noCatalog [rowBlankSize] "S|" gBlankSize rfl (by decide)).1

end AgedInventory
